import Mathlib

/-!
Verification of `src/scraper_benchmark.py`, a benchmark that scrapes the
paginated catalogue of books.toscrape.com: list pages are parsed into
summary records, each record's detail page is fetched and parsed, and the
enriched records are appended to a shared result list by one or several
workers draining a job queue.

The Python source is embedded shallowly:

* HTML bodies are modelled as the structure BeautifulSoup hands the code:
  a list page is the list of its `article.product_pod` nodes, a detail page
  is the triple of text contents selected by the three fixed selectors.
* The network (`aiohttp` plus `fetch`) is an oracle mapping a URL to the
  parsed body, or to a `TransportError` (timeout, connection failure,
  bad status), matching the Fetcher interface.
* Python dict subscripting (`tag['title']`) raises `KeyError` when the
  attribute is missing; this is modelled with `Except`.
* `str.strip` is modelled by `String.trim`; `urllib.parse.urljoin` is
  modelled at the fixed catalogue base used by the source, with
  dot-segment normalisation out of modelled range (plain relative links,
  scheme-absolute links and root-relative links are covered).
-/

namespace Scraper

/-- `https://books.toscrape.com/catalogue/page-{}.html` instantiated at a
page number, as in `BASE_URL.format(page)` of the source. -/
def pageUrl (page : Nat) : String :=
  "https://books.toscrape.com/catalogue/page-" ++ toString page ++ ".html"

/-- The fixed base for resolving relative links from the catalogue
(`BASE_URL_FOR_JOINING` in the source). -/
def BASE_URL_FOR_JOINING : String := "https://books.toscrape.com/catalogue/"

/-- The `h3 > a` anchor of a catalogue item node, with its two optional
HTML attributes: BeautifulSoup raises `KeyError` when a subscripted
attribute is absent, hence the `Option`s. -/
structure TitleTag where
  title : Option String
  href : Option String
deriving DecidableEq, Repr

/-- An `article.product_pod` node of a list page: it may or may not
contain an `h3 > a` title anchor (`select_one` returns `None` when the
selector matches nothing, and a found tag is always truthy). -/
structure ProductPod where
  titleTag : Option TitleTag
deriving DecidableEq, Repr

/-- The detail-page structure as seen through the three selectors of
`parse_book_details`: text of `.product_main .price_color`, text of
`.product_main .availability`, and text of `#product_description + p`,
each `none` when the selector matches nothing. -/
structure DetailSoup where
  price_tag : Option String
  stock_tag : Option String
  desc_tag : Option String
deriving DecidableEq, Repr

/-- The dict built by `parse_book_details`: each key is present exactly
when its source tag was found. -/
structure BookDetails where
  price : Option String
  stock : Option String
  description_length : Option Nat
deriving DecidableEq, Repr

/-- A book record as built by `parse_books_list` (`details` absent) and
enriched by `fetch_book_with_details` (`details` set). -/
structure Book where
  title : String
  link : String
  details : Option BookDetails
deriving DecidableEq, Repr

/-- Transport failures of the Fetcher: per the spec's taxonomy, timeout
expiry, connection failure and non-2xx status are treated uniformly. -/
inductive TransportError where
  | timeout
  | connFailure
  | badStatus (code : Nat)
deriving DecidableEq, Repr

/-- The network oracle standing for `aiohttp` + `fetch` + BeautifulSoup:
a list-page URL yields its item nodes, a detail URL yields its selected
fragments; either fetch may fail with a `TransportError`. -/
structure Net where
  listPage : String → Except TransportError (List ProductPod)
  detailPage : String → Except TransportError DetailSoup

/-- Python `tag[key]`: the attribute's value, or a `KeyError` carrying the
missing key. -/
def getAttr (attr : Option String) (key : String) : Except String String :=
  match attr with
  | some v => Except.ok v
  | none => Except.error key

/-! String helpers. The library's `String.trim`, `String.startsWith`,
`String.splitOn` and `String.contains` are defined by well-founded
recursion on byte positions, which the kernel will not unfold when a
witness is checked by `decide`; the structurally recursive versions
below (on the character list underlying the string) compute in the
kernel and model the same Python semantics. -/

/-- ASCII whitespace, the fragment of Python's `str.strip` default set
that the catalogue data exercises. -/
def isSpaceChar (c : Char) : Bool :=
  c == ' ' || c == '\t' || c == '\n' || c == '\r'

/-- Python `str.strip()`: drop whitespace from both ends. -/
def pyStrip (s : String) : String :=
  ⟨((s.data.dropWhile isSpaceChar).reverse.dropWhile isSpaceChar).reverse⟩

/-- Whether `l` begins with `p`. -/
def beginsWith : List Char → List Char → Bool
  | _, [] => true
  | [], _ :: _ => false
  | c :: cs, p :: ps => c == p && beginsWith cs ps

/-- Python `str.startswith`. -/
def pyStartsWith (s pre : String) : Bool :=
  beginsWith s.data pre.data

/-- Whether the character `c` occurs in `s`. -/
def pyContains (s : String) (c : Char) : Bool :=
  s.data.contains c

/-- Split a character list at every occurrence of `c`
(Python `str.split(c)` on a one-character separator). -/
def splitChar (c : Char) : List Char → List (List Char)
  | [] => [[]]
  | x :: xs =>
    if x == c then [] :: splitChar c xs
    else
      match splitChar c xs with
      | [] => [[x]]
      | seg :: rest => (x :: seg) :: rest

/-- The path segments of a URL string: Python `url.split('/')`. -/
def slashSegments (s : String) : List (List Char) :=
  splitChar '/' s.data

/-- `urllib.parse.urljoin` specialised to the fixed catalogue base
`BASE_URL_FOR_JOINING` (the only base the source uses). An absolute URL
replaces the base; a `//`-prefixed URL takes the base's scheme; a
`/`-prefixed URL is resolved against the base's network location; any
other non-empty URL is appended to the base directory. Dot-segment
normalisation is not modelled; the well-formedness predicate below keeps
inputs inside the modelled range. -/
def urljoin (base url : String) : String :=
  if url = "" then base
  else if pyStartsWith url "http://" || pyStartsWith url "https://" then url
  else if pyStartsWith url "//" then "https:" ++ url
  else if pyStartsWith url "/" then "https://books.toscrape.com" ++ url
  else base ++ url

/-- `parse_books_list`: walk the `article.product_pod` nodes in order; a
node with no `h3 > a` anchor is skipped; for a node with an anchor, read
its `title` attribute (KeyError if absent), strip it, read its `href`
attribute (KeyError if absent), join it with the catalogue base, and
append the record. A raised `KeyError` aborts the whole call. -/
def parse_books_list : List ProductPod → Except String (List Book)
  | [] => Except.ok []
  | pod :: rest =>
    match pod.titleTag with
    | none => parse_books_list rest
    | some tag =>
      match getAttr tag.title "title" with
      | Except.error k => Except.error k
      | Except.ok rawTitle =>
        match getAttr tag.href "href" with
        | Except.error k => Except.error k
        | Except.ok href =>
          match parse_books_list rest with
          | Except.error k => Except.error k
          | Except.ok books =>
            Except.ok ({ title := pyStrip rawTitle
                       , link := urljoin BASE_URL_FOR_JOINING href
                       , details := none } :: books)

/-- `parse_book_details`: each of the three fields is set exactly when its
tag is present — price and availability text stripped, description
reduced to the length of its stripped text. Total: absence is never an
error. -/
def parse_book_details (soup : DetailSoup) : BookDetails :=
  { price := soup.price_tag.map pyStrip
  , stock := soup.stock_tag.map pyStrip
  , description_length := soup.desc_tag.map (fun t => (pyStrip t).length) }

/-- `fetch_book_with_details` on the heap model: `store` is the heap of
book dicts, `i` a reference into it (the entry held by the page's `books`
list). The detail page at the record's `link` is fetched and parsed and
the result assigned to the record's `details` key in place; the function
returns the reference to the very record it was given. A transport
failure propagates. -/
def fetch_book_with_details (net : Net) (store : List Book)
    (i : Fin store.length) : Except TransportError (List Book × Nat) :=
  match net.detailPage (store.get i).link with
  | Except.error e => Except.error e
  | Except.ok soup =>
    Except.ok
      (store.set i { store.get i with details := some (parse_book_details soup) }, i.val)

/-- The store-free shadow of `fetch_book_with_details`: enrich one book
record with its parsed detail page. -/
def enrichBook (net : Net) (b : Book) : Except TransportError Book :=
  match net.detailPage b.link with
  | Except.error e => Except.error e
  | Except.ok soup => Except.ok { b with details := some (parse_book_details soup) }

/-- The fan-out stage over one page's records: every record is enriched;
one transport failure makes the whole page's task group fail (the source
has no per-item isolation). -/
def enrichAll (net : Net) : List Book → Except TransportError (List Book)
  | [] => Except.ok []
  | b :: bs =>
    match enrichBook net b with
    | Except.error e => Except.error e
    | Except.ok b2 =>
      match enrichAll net bs with
      | Except.error e => Except.error e
      | Except.ok rest => Except.ok (b2 :: rest)

/-! ### The worker's pull loop, sequential view

`worker` in the source: repeatedly `queue.get(block=False)` (break on
`Empty`), fetch the list page, parse it, break if no summaries, fan out
detail tasks, and after the join `all_books.extend(books)`. The queue is
the FIFO list of undispatched jobs; `workerRun` returns the remaining
queue, the final shared list, and how the loop ended. Any raised
exception (transport failure, `KeyError` from the parser, a failed detail
task group) aborts the loop: the corresponding exit label records it. -/

/-- How a worker's pull loop ends: `drained` — `queue.get` raised `Empty`;
`emptyPage` — a fetched page parsed to zero summaries (`break`);
the remaining labels are the uncaught exceptions that abort the loop. -/
inductive WorkerExit where
  | drained
  | emptyPage
  | listFetchFailed (e : TransportError)
  | keyErrorRaised (key : String)
  | detailFetchFailed (e : TransportError)
deriving DecidableEq, Repr

/-- One worker draining the queue sequentially: returns
(undispatched jobs, final `all_books`, exit label). -/
def workerRun (net : Net) : List String → List Book → List String × List Book × WorkerExit
  | [], acc => ([], acc, WorkerExit.drained)
  | u :: q, acc =>
    match net.listPage u with
    | Except.error e => (q, acc, WorkerExit.listFetchFailed e)
    | Except.ok pods =>
      match parse_books_list pods with
      | Except.error k => (q, acc, WorkerExit.keyErrorRaised k)
      | Except.ok books =>
        if books.isEmpty then (q, acc, WorkerExit.emptyPage)
        else
          match enrichAll net books with
          | Except.error e => (q, acc, WorkerExit.detailFetchFailed e)
          | Except.ok enriched => workerRun net q (acc ++ enriched)

/-! ### Orchestrator seeding and queue draining -/

/-- `main`'s seeding loop: `for page in range(1, 51): queue.put(...)` —
the queue's content, in FIFO order, once seeding finishes and before any
worker starts. -/
def seededJobs : List String := (List.range 50).map (fun i => pageUrl (i + 1))

/-- `queue.get(block=False)` on the FIFO queue: the front job and the
rest, or `none` for the raised `Empty`. -/
def tryTake : List String → Option (String × List String)
  | [] => none
  | u :: q => some (u, q)

/-- A single consumer repeatedly calling `tryTake` until `Empty`: the
sequence of jobs it receives. -/
def drainAll : List String → List String
  | [] => []
  | u :: q => u :: drainAll q

/-! ### The multi-worker run as an interleaving transition system

`main` in multithreaded mode submits `W` copies of
`asyncio.run(worker(queue, all_books))` to a thread pool and joins them.
The workers share exactly two objects: the `Queue` (whose non-blocking
`get` is atomic) and the `all_books` list (whose `extend` is a single
atomic operation on the built-in list). Everything between a worker's
`get` and its `extend` — fetching, parsing, the detail fan-out — touches
only worker-local state, so a worker's iteration is abstracted to the
two shared-state events with its page outcome precomputed by
`processPage`; interleaving of the `W` workers is arbitrary. -/

/-- The outcome of one worker iteration on job `u`, between the `get`
and the `extend`: `proceed batch` — page fetched, parsed to a non-empty
list and every detail task succeeded, so `batch` (the in-place-enriched
`books`) is extended onto `all_books`; `stopEmpty` — zero summaries, the
loop breaks before extending; `abort` — an exception (list fetch,
`KeyError`, or a failed detail task) kills the worker before extending. -/
inductive PageOutcome where
  | proceed (batch : List Book)
  | stopEmpty
  | abort
deriving DecidableEq, Repr

/-- One iteration's effect, as a function of the job URL. -/
def processPage (net : Net) (u : String) : PageOutcome :=
  match net.listPage u with
  | Except.error _ => PageOutcome.abort
  | Except.ok pods =>
    match parse_books_list pods with
    | Except.error _ => PageOutcome.abort
    | Except.ok books =>
      if books.isEmpty then PageOutcome.stopEmpty
      else
        match enrichAll net books with
        | Except.error _ => PageOutcome.abort
        | Except.ok enriched => PageOutcome.proceed enriched

/-- The number of summaries `parse_books_list` extracts from the list
page at `u` (0 when the fetch or the parse fails). -/
def numSummaries (net : Net) (u : String) : Nat :=
  match net.listPage u with
  | Except.error _ => 0
  | Except.ok pods =>
    match parse_books_list pods with
    | Except.error _ => 0
    | Except.ok books => books.length

/-- A worker's shared-state phase: `ready` — about to call
`queue.get(block=False)`; `holding batch` — between the take and the
`all_books.extend`; `done` — its loop has ended (Empty take, empty-page
break, or uncaught exception). -/
inductive WPhase where
  | ready
  | holding (batch : List Book)
  | done
deriving DecidableEq, Repr

/-- The shared state of a run: the job queue, the shared `all_books`
list, and each worker's phase. -/
structure Sys where
  queue : List String
  allBooks : List Book
  workers : List WPhase
deriving DecidableEq, Repr

/-- The initial state `main` hands to the workers: the fully seeded
queue, the empty result list, and `W` workers none of which has started. -/
def mainInit (jobs : List String) (W : Nat) : Sys :=
  { queue := jobs, allBooks := [], workers := List.replicate W WPhase.ready }

/-- One atomic shared-state step of the run. Any worker (the one at the
split `l1 ++ _ :: l2`) may move: take the front job and hold its batch
(`take`), take it and die on an empty page or an exception
(`takeStop`), see the empty queue and end (`exitEmpty`), or extend its
held batch atomically onto `all_books` (`append`). -/
inductive Step (net : Net) : Sys → Sys → Prop
  | take (u : String) (q : List String) (A batch : List Book)
      (l1 l2 : List WPhase) :
      processPage net u = PageOutcome.proceed batch →
      Step net ⟨u :: q, A, l1 ++ WPhase.ready :: l2⟩
        ⟨q, A, l1 ++ WPhase.holding batch :: l2⟩
  | takeStop (u : String) (q : List String) (A : List Book)
      (l1 l2 : List WPhase) :
      processPage net u = PageOutcome.stopEmpty ∨
        processPage net u = PageOutcome.abort →
      Step net ⟨u :: q, A, l1 ++ WPhase.ready :: l2⟩
        ⟨q, A, l1 ++ WPhase.done :: l2⟩
  | exitEmpty (A : List Book) (l1 l2 : List WPhase) :
      Step net ⟨[], A, l1 ++ WPhase.ready :: l2⟩
        ⟨[], A, l1 ++ WPhase.done :: l2⟩
  | append (Q : List String) (A batch : List Book) (l1 l2 : List WPhase) :
      Step net ⟨Q, A, l1 ++ WPhase.holding batch :: l2⟩
        ⟨Q, A ++ batch, l1 ++ WPhase.ready :: l2⟩

/-- States reachable from `mainInit jobs W` by interleaved worker steps. -/
inductive Reach (net : Net) (jobs : List String) (W : Nat) : Sys → Prop
  | init : Reach net jobs W (mainInit jobs W)
  | step {s s2 : Sys} : Reach net jobs W s → Step net s s2 → Reach net jobs W s2

/-- The items one worker holds but has not yet appended. -/
def phaseCount : WPhase → Nat
  | WPhase.holding batch => batch.length
  | _ => 0

/-- The items all workers hold but have not yet appended. -/
def heldCount (ws : List WPhase) : Nat :=
  (ws.map phaseCount).sum

/-- The summaries still to be extracted from the queued pages. -/
def countSum (net : Net) (q : List String) : Nat :=
  (q.map (numSummaries net)).sum

/-! ### One worker with its detail fan-out made explicit

For the join-barrier property the inner concurrency cannot be folded
into one step: the `asyncio.TaskGroup` launches one detail task per
summary, the tasks complete in any order, and leaving the
`async with` block — which is where the source's `all_books.extend` and
the next `queue.get` sit — awaits every one of them. The labelled
system below records, per observable event, what one worker does:
`take u n` — a `queue.get` returning the page at `u`, whose parse
fans out `n` detail tasks; `detailDone u i` — detail task `i` of that
page completed (successfully or by failing / being cancelled);
`append u n` — `all_books.extend(books)` with the `n` enriched records;
`pageAbort u` — the task group re-raises and the worker dies;
`exit` — `queue.get` raised `Empty`. -/
inductive Ev where
  | take (u : String) (n : Nat)
  | detailDone (u : String) (i : Nat)
  | append (u : String) (n : Nat)
  | pageAbort (u : String)
  | exit
deriving DecidableEq, Repr

/-- The worker's control point between events: `pull` — at the top of
the loop; `fanout u books pending` — inside the task group for page `u`,
the tasks in `pending` not yet completed; `halted` — the loop has
ended. -/
inductive IPhase where
  | pull
  | fanout (u : String) (books : List Book) (pending : List Nat)
  | halted
deriving DecidableEq, Repr

/-- One worker's state: its private view of the queue plus its control
point. -/
structure ISt where
  queue : List String
  phase : IPhase
deriving DecidableEq, Repr

/-- The worker's labelled transitions. A take on a parsed non-empty page
launches task `i` for every index `i` of `books` (`takeGo`); a page that
fails to fetch/parse, or parses empty, ends the loop with no tasks
launched. `detailStep` completes one still-pending task. Only when
`pending` is empty can the task group be left: `joinAppend` if every
detail fetch succeeded, `joinAbort` otherwise. -/
inductive IStep (net : Net) : ISt → Ev → ISt → Prop
  | takeGo (u : String) (q : List String) (pods : List ProductPod)
      (books : List Book) :
      net.listPage u = Except.ok pods →
      parse_books_list pods = Except.ok books →
      books ≠ [] →
      IStep net ⟨u :: q, IPhase.pull⟩ (Ev.take u books.length)
        ⟨q, IPhase.fanout u books (List.range books.length)⟩
  | takeEmptyPage (u : String) (q : List String) (pods : List ProductPod) :
      net.listPage u = Except.ok pods →
      parse_books_list pods = Except.ok [] →
      IStep net ⟨u :: q, IPhase.pull⟩ (Ev.take u 0) ⟨q, IPhase.halted⟩
  | takeBad (u : String) (q : List String) :
      (∃ e, net.listPage u = Except.error e) ∨
        (∃ pods k, net.listPage u = Except.ok pods ∧
          parse_books_list pods = Except.error k) →
      IStep net ⟨u :: q, IPhase.pull⟩ (Ev.take u 0) ⟨q, IPhase.halted⟩
  | exitQueueEmpty :
      IStep net ⟨[], IPhase.pull⟩ Ev.exit ⟨[], IPhase.halted⟩
  | detailStep (u : String) (q : List String) (books : List Book)
      (pending : List Nat) (i : Nat) :
      i ∈ pending →
      IStep net ⟨q, IPhase.fanout u books pending⟩ (Ev.detailDone u i)
        ⟨q, IPhase.fanout u books (pending.erase i)⟩
  | joinAppend (u : String) (q : List String) (books : List Book) :
      (∀ b ∈ books, (net.detailPage b.link).isOk) →
      IStep net ⟨q, IPhase.fanout u books []⟩ (Ev.append u books.length)
        ⟨q, IPhase.pull⟩
  | joinAbort (u : String) (q : List String) (books : List Book) :
      ¬ (∀ b ∈ books, (net.detailPage b.link).isOk) →
      IStep net ⟨q, IPhase.fanout u books []⟩ (Ev.pageAbort u)
        ⟨q, IPhase.halted⟩

/-- Event traces of one worker run from `s`. -/
inductive ITrace (net : Net) (s : ISt) : List Ev → ISt → Prop
  | refl : ITrace net s [] s
  | snoc {tr : List Ev} {s2 s3 : ISt} {e : Ev} :
      ITrace net s tr s2 → IStep net s2 e s3 → ITrace net s (tr ++ [e]) s3

/-- How one event changes the set of pending detail tasks: a take fans
out its page's tasks, a completion retires one, leaving the task group
(append / abort) clears it. -/
def pendingStep (p : List Nat) : Ev → List Nat
  | Ev.take _ n => List.range n
  | Ev.detailDone _ i => p.erase i
  | Ev.append _ _ => []
  | Ev.pageAbort _ => []
  | Ev.exit => p

/-- The detail tasks still pending after a sequence of events, read off
the events alone. -/
def pendingAfter (evs : List Ev) : List Nat :=
  evs.foldl pendingStep []

/-- Whether an event is one the join barrier must guard: pulling the
next job or appending the batch. -/
def guardedEv : Ev → Bool
  | Ev.take _ _ => true
  | Ev.append _ _ => true
  | _ => false

/-! ### Well-formed catalogue items

The catalogue's item links are plain relative paths
(`some-book_123/index.html`). `plainRelativeHref` carves out exactly the
href fragment on which the specialised `urljoin` model is exact for the
fixed base: non-empty, no scheme or authority or root, no colon (so no
scheme at all), and no empty or dot path segment (so no normalisation
happens). -/
def plainRelativeHref (h : String) : Bool :=
  !(h == "") && !(pyStartsWith h "http://") && !(pyStartsWith h "https://") &&
  !(pyStartsWith h "//") && !(pyStartsWith h "/") && !(pyContains h ':') &&
  (slashSegments h).all (fun seg => !(seg == [] || seg == ['.'] || seg == ['.', '.']))

/-- A well-formed item node: it has a title anchor whose `title`
attribute strips to a non-empty string and whose `href` attribute is a
plain relative link. -/
def wellFormedPod (pod : ProductPod) : Bool :=
  match pod.titleTag with
  | none => false
  | some tag =>
    (match tag.title with
     | none => false
     | some t => !(pyStrip t == "")) &&
    (match tag.href with
     | none => false
     | some h => plainRelativeHref h)

theorem wellFormedPod_elim {pod : ProductPod} (hwf : wellFormedPod pod = true) :
    ∃ tag t h, pod.titleTag = some tag ∧ tag.title = some t ∧ pyStrip t ≠ "" ∧
      tag.href = some h ∧ plainRelativeHref h = true := by
  rcases pod with ⟨tag?⟩
  cases tag? with
  | none => simp [wellFormedPod] at hwf
  | some tag =>
    rcases tag with ⟨t?, h?⟩
    cases t? with
    | none => simp [wellFormedPod] at hwf
    | some t =>
      cases h? with
      | none => simp [wellFormedPod] at hwf
      | some h =>
        simp only [wellFormedPod, Bool.and_eq_true, bne_iff_ne, ne_eq,
          Bool.not_eq_true'] at hwf
        exact ⟨_, _, _, rfl, rfl, by simpa using hwf.1, rfl, hwf.2⟩

theorem urljoin_of_plainRelative {h : String} (hp : plainRelativeHref h = true) :
    urljoin BASE_URL_FOR_JOINING h = BASE_URL_FOR_JOINING ++ h := by
  simp only [plainRelativeHref, Bool.and_eq_true, Bool.not_eq_true',
    beq_iff_eq] at hp
  obtain ⟨⟨⟨⟨⟨⟨h1, h2⟩, h3⟩, h4⟩, h5⟩, _⟩, _⟩ := hp
  have h1' : h ≠ "" := by simpa using h1
  simp [urljoin, h1', h2, h3, h4, h5]

/-- The Page Parser on a fully well-formed list of item nodes: no
`KeyError`, one record per node, every record carrying a non-empty
stripped title and a link extending the fixed catalogue base, with the
`details` key absent. -/
theorem parse_books_list_wf (pods : List ProductPod)
    (hwf : ∀ pod ∈ pods, wellFormedPod pod = true) :
    ∃ books, parse_books_list pods = Except.ok books ∧
      books.length = pods.length ∧
      ∀ b ∈ books, b.title ≠ "" ∧
        (∃ rest, b.link = BASE_URL_FOR_JOINING ++ rest) ∧ b.details = none := by
  induction pods with
  | nil => exact ⟨[], rfl, rfl, by simp⟩
  | cons pod rest ih =>
    obtain ⟨books, hok, hlen, hmem⟩ := ih (fun p hp => hwf p (List.mem_cons_of_mem _ hp))
    obtain ⟨tag, t, h, htag, ht, htne, hh, hp⟩ :=
      wellFormedPod_elim (hwf pod (List.mem_cons_self _ _))
    refine ⟨{ title := pyStrip t, link := urljoin BASE_URL_FOR_JOINING h,
              details := none } :: books, ?_, by simp [hlen], ?_⟩
    · simp [parse_books_list, htag, ht, hh, getAttr, hok]
    · intro b hb
      rcases List.mem_cons.mp hb with hb | hb
      · subst hb
        exact ⟨htne, ⟨h, urljoin_of_plainRelative hp⟩, rfl⟩
      · exact hmem b hb

/-- Skipping is positional: a node without a title anchor contributes
nothing, wherever it sits. -/
theorem parse_books_list_skip (l1 l2 : List ProductPod) :
    parse_books_list (l1 ++ { titleTag := none } :: l2) =
      parse_books_list (l1 ++ l2) := by
  induction l1 with
  | nil => simp [parse_books_list]
  | cons pod l1 ih =>
    cases htag : pod.titleTag with
    | none => simpa [parse_books_list, htag] using ih
    | some tag => simp [parse_books_list, htag, ih]

/-- A sample well-formed catalogue item node, for concrete runs. -/
def samplePod : ProductPod :=
  { titleTag := some { title := some "A Light in the Attic"
                     , href := some "a-light-in-the-attic_1000/index.html" } }

/-- C4: `parse_book_details` on a detail page whose price element is
missing but whose availability element and description block are present
returns the price field absent and the other two fields present; and in
general each of the three extractions depends only on its own markup
fragment, so each is independently optional and the parser never fails. -/
theorem detail_parser_fields_independently_optional :
    (∀ s d, parse_book_details { price_tag := none, stock_tag := some s, desc_tag := some d } =
        { price := none, stock := some (pyStrip s),
          description_length := some (pyStrip d).length }) ∧
    ∀ soup, (parse_book_details soup).price = soup.price_tag.map pyStrip ∧
      (parse_book_details soup).stock = soup.stock_tag.map pyStrip ∧
      (parse_book_details soup).description_length =
        soup.desc_tag.map (fun t => (pyStrip t).length) :=
  ⟨fun _ _ => rfl, fun _ => ⟨rfl, rfl, rfl⟩⟩

/-- C5: on a list page with one anchor-less item node among otherwise
well-formed nodes, `parse_books_list` does not error: the anchor-less
node is silently skipped and the result holds exactly one record per
remaining node. -/
theorem parse_skips_anchorless_node (l1 l2 : List ProductPod)
    (hwf : ∀ pod ∈ l1 ++ l2, wellFormedPod pod = true) :
    parse_books_list (l1 ++ { titleTag := none } :: l2) =
      parse_books_list (l1 ++ l2) ∧
    ∃ books, parse_books_list (l1 ++ { titleTag := none } :: l2) = Except.ok books ∧
      books.length = l1.length + l2.length := by
  obtain ⟨books, hok, hlen, _⟩ := parse_books_list_wf (l1 ++ l2) hwf
  refine ⟨parse_books_list_skip l1 l2, books, ?_, by simpa using hlen⟩
  rw [parse_books_list_skip l1 l2, hok]

theorem parse_skips_anchorless_node_witness :
    parse_books_list ([samplePod] ++ { titleTag := none } :: [samplePod]) =
      parse_books_list ([samplePod] ++ [samplePod]) ∧
    ∃ books,
      parse_books_list ([samplePod] ++ { titleTag := none } :: [samplePod]) =
        Except.ok books ∧
      books.length = [samplePod].length + [samplePod].length :=
  parse_skips_anchorless_node [samplePod] [samplePod] (by decide)

/-- C6: on a list page with exactly 20 well-formed item nodes and no
malformed ones, `parse_books_list` returns exactly 20 records, each with
a non-empty title and an absolute link beginning with the fixed
catalogue base. -/
theorem parse_twenty_wellformed_nodes (pods : List ProductPod)
    (hlen : pods.length = 20) (hwf : ∀ pod ∈ pods, wellFormedPod pod = true) :
    ∃ books, parse_books_list pods = Except.ok books ∧ books.length = 20 ∧
      ∀ b ∈ books, b.title ≠ "" ∧
        ∃ rest, b.link = BASE_URL_FOR_JOINING ++ rest := by
  obtain ⟨books, hok, hlen2, hmem⟩ := parse_books_list_wf pods hwf
  exact ⟨books, hok, by rw [hlen2, hlen],
    fun b hb => ⟨(hmem b hb).1, (hmem b hb).2.1⟩⟩

theorem parse_twenty_wellformed_nodes_witness :
    ∃ books,
      parse_books_list (List.replicate 20 samplePod) = Except.ok books ∧
      books.length = 20 ∧
      ∀ b ∈ books, b.title ≠ "" ∧
        ∃ rest, b.link = BASE_URL_FOR_JOINING ++ rest :=
  parse_twenty_wellformed_nodes (List.replicate 20 samplePod) (by decide) (by decide)

/-! ### The per-page join barrier (C8) -/

/-- The pending tasks a control point carries. -/
def phaseTasks : IPhase → List Nat
  | IPhase.fanout _ _ pending => pending
  | _ => []

theorem pendingAfter_append_one (evs : List Ev) (e : Ev) :
    pendingAfter (evs ++ [e]) = pendingStep (pendingAfter evs) e := by
  simp [pendingAfter, List.foldl_append]

/-- Along a worker run the event-derived pending set tracks the control
point's. -/
theorem itrace_tracks_pending (net : Net) (jobs : List String)
    {tr : List Ev} {s : ISt}
    (h : ITrace net ⟨jobs, IPhase.pull⟩ tr s) :
    pendingAfter tr = phaseTasks s.phase := by
  induction h with
  | refl => rfl
  | snoc htr hstep ih =>
    rw [pendingAfter_append_one, ih]
    cases hstep with
    | takeGo u q pods books h1 h2 h3 => simp [pendingStep, phaseTasks]
    | takeEmptyPage u q pods h1 h2 => simp [pendingStep, phaseTasks]
    | takeBad u q h1 => simp [pendingStep, phaseTasks]
    | exitQueueEmpty => simp [pendingStep, phaseTasks]
    | detailStep u q books pending i hi => simp [pendingStep, phaseTasks]
    | joinAppend u q books hok => simp [pendingStep, phaseTasks]
    | joinAbort u q books hbad => simp [pendingStep, phaseTasks]

/-- A guarded event — pulling the next job or appending the batch — can
only fire from a control point with no pending detail task. -/
theorem guarded_step_no_pending {net : Net} {s1 s2 : ISt} {e : Ev}
    (hstep : IStep net s1 e s2) (hg : guardedEv e = true) :
    phaseTasks s1.phase = [] := by
  cases hstep with
  | takeGo u q pods books h1 h2 h3 => rfl
  | takeEmptyPage u q pods h1 h2 => rfl
  | takeBad u q h1 => rfl
  | exitQueueEmpty => rfl
  | detailStep u q books pending i hi => exact absurd hg (by simp [guardedEv])
  | joinAppend u q books hok => rfl
  | joinAbort u q books hbad => exact absurd hg (by simp [guardedEv])

/-- C8: the per-page join is a hard barrier. In every event trace of a
worker run, whenever a `take` (the worker pulling its next job) or an
`append` (the worker extending `all_books` with the current page's
batch) occurs, the set of detail tasks launched for the current page and
not yet completed — as read off the preceding events — is empty: every
concurrently launched detail fetch+parse task has completed,
successfully or by failing, first. -/
theorem worker_join_barrier (net : Net) (jobs : List String)
    {tr : List Ev} {s : ISt}
    (h : ITrace net ⟨jobs, IPhase.pull⟩ tr s) :
    ∀ j e, tr[j]? = some e → guardedEv e = true →
      pendingAfter (tr.take j) = [] := by
  induction h with
  | refl =>
    intro j e hj
    exact absurd hj (by simp)
  | @snoc tr2 s2 s3 e2 htr hstep ih =>
    intro j e hj hg
    rcases Nat.lt_trichotomy j tr2.length with hlt | heq | hgt
    · have hj2 : tr2[j]? = some e := by
        rw [List.getElem?_append_left hlt] at hj
        exact hj
      have htake : (tr2 ++ [e2]).take j = tr2.take j := by
        rw [List.take_append_eq_append_take]
        have : j - tr2.length = 0 := Nat.sub_eq_zero_of_le (Nat.le_of_lt hlt)
        simp [this]
      rw [htake]
      exact ih j e hj2 hg
    · subst heq
      have he : e = e2 := by
        rw [List.getElem?_concat_length] at hj
        cases hj
        rfl
      subst he
      have htake : (tr2 ++ [e]).take tr2.length = tr2 := List.take_left tr2 [e]
      rw [htake]
      rw [itrace_tracks_pending net jobs htr]
      exact guarded_step_no_pending hstep hg
    · exfalso
      have : (tr2 ++ [e2]).length ≤ j := by
        simp only [List.length_append, List.length_cons, List.length_nil]
        omega
      rw [List.getElem?_eq_none this] at hj
      exact absurd hj (by simp)

/-- C9: `parse_books_list` is not total. A node whose title anchor is
present but lacks the `title` attribute (or the `href` attribute) makes
the subscript raise a `KeyError` that aborts the whole call; the parser
returns a list exactly on the inputs where every present title anchor
carries both attributes. -/
theorem parse_keyerror_on_missing_attrs :
    parse_books_list [{ titleTag := some { title := none, href := some "x/y.html" } }] =
      Except.error "title" ∧
    parse_books_list [{ titleTag := some { title := some "T", href := none } }] =
      Except.error "href" ∧
    ∀ pods, (∃ books, parse_books_list pods = Except.ok books) ↔
      ∀ pod ∈ pods, ∀ tag, pod.titleTag = some tag →
        tag.title.isSome ∧ tag.href.isSome := by
  refine ⟨rfl, rfl, ?_⟩
  intro pods
  induction pods with
  | nil =>
    simp [parse_books_list]
  | cons pod rest ih =>
    cases htag : pod.titleTag with
    | none =>
      have heq : parse_books_list (pod :: rest) = parse_books_list rest := by
        simp [parse_books_list, htag]
      rw [heq, ih]
      constructor
      · intro hall p hp tag hptag
        rcases List.mem_cons.mp hp with rfl | hp
        · rw [htag] at hptag
          exact absurd hptag (by simp)
        · exact hall p hp tag hptag
      · intro hall p hp tag hptag
        exact hall p (List.mem_cons_of_mem _ hp) tag hptag
    | some tag =>
      cases ht : tag.title with
      | none =>
        have heq : parse_books_list (pod :: rest) = Except.error "title" := by
          simp [parse_books_list, htag, ht, getAttr]
        constructor
        · rintro ⟨books, hb⟩
          rw [heq] at hb
          exact absurd hb (by simp)
        · intro hall
          have := (hall pod (List.mem_cons_self _ _) tag htag).1
          rw [ht] at this
          exact absurd this (by simp)
      | some t =>
        cases hh : tag.href with
        | none =>
          have heq : parse_books_list (pod :: rest) = Except.error "href" := by
            simp [parse_books_list, htag, ht, hh, getAttr]
          constructor
          · rintro ⟨books, hb⟩
            rw [heq] at hb
            exact absurd hb (by simp)
          · intro hall
            have := (hall pod (List.mem_cons_self _ _) tag htag).2
            rw [hh] at this
            exact absurd this (by simp)
        | some href =>
          constructor
          · rintro ⟨books, hb⟩
            intro p hp tag2 hptag2
            rcases List.mem_cons.mp hp with rfl | hp
            · rw [htag] at hptag2
              cases hptag2
              exact ⟨by simp [ht], by simp [hh]⟩
            · refine (ih.mp ?_) p hp tag2 hptag2
              simp only [parse_books_list, htag, ht, hh, getAttr] at hb
              cases hrest : parse_books_list rest with
              | error k => rw [hrest] at hb; exact absurd hb (by simp)
              | ok bs => exact ⟨bs, rfl⟩
          · intro hall
            obtain ⟨bs, hbs⟩ :=
              ih.mpr (fun p hp => hall p (List.mem_cons_of_mem _ hp))
            exact ⟨{ title := pyStrip t, link := urljoin BASE_URL_FOR_JOINING href,
                     details := none } :: bs,
              by simp [parse_books_list, htag, ht, hh, getAttr, hbs]⟩

/-- C10: when the detail fetch succeeds, `fetch_book_with_details`
returns a reference to the very record it was given (`i.val = i`), with
the record's `title` and `link` unchanged and the `details` key its only
addition, and with every other heap entry untouched — so the entry the
page's batch list already holds is the enriched record that the worker
later appends. -/
theorem fetch_book_with_details_in_place (net : Net) (store : List Book)
    (i : Fin store.length) (soup : DetailSoup)
    (hfetch : net.detailPage (store.get i).link = Except.ok soup) :
    ∃ store2, fetch_book_with_details net store i = Except.ok (store2, i.val) ∧
      store2.length = store.length ∧
      store2[i.val]? = some { title := (store.get i).title
                            , link := (store.get i).link
                            , details := some (parse_book_details soup) } ∧
      ∀ j, j ≠ i.val → store2[j]? = store[j]? := by
  refine ⟨store.set i { store.get i with details := some (parse_book_details soup) },
    ?_, by simp, ?_, ?_⟩
  · have hfetch2 : net.detailPage store[i.val].link = Except.ok soup := by
      simpa [List.get_eq_getElem] using hfetch
    simp [fetch_book_with_details, hfetch2]
  · rw [List.getElem?_set_eq_of_lt _ i.isLt]
  · intro j hj
    exact List.getElem?_set_ne (fun hji => hj hji.symm)

/-- A sample detail page and book heap for concrete runs. -/
def sampleSoup : DetailSoup :=
  { price_tag := some " £51.77 "
  , stock_tag := some "In stock (22 available)"
  , desc_tag := some "A charming book. " }

/-- A fixed network where every list page is one `samplePod` and every
detail page is `sampleSoup`. -/
def sampleNet : Net :=
  { listPage := fun _ => Except.ok [samplePod]
  , detailPage := fun _ => Except.ok sampleSoup }

/-- The record `parse_books_list` builds from `samplePod`. -/
def sampleBook : Book :=
  { title := "A Light in the Attic"
  , link := BASE_URL_FOR_JOINING ++ "a-light-in-the-attic_1000/index.html"
  , details := none }

theorem fetch_book_with_details_in_place_witness :
    ∃ store2,
      fetch_book_with_details sampleNet [sampleBook] ⟨0, by decide⟩ =
        Except.ok (store2, (0 : Nat)) ∧
      store2.length = [sampleBook].length ∧
      store2[(0 : Nat)]? = some { title := ([sampleBook].get ⟨0, by decide⟩).title
                                , link := ([sampleBook].get ⟨0, by decide⟩).link
                                , details := some (parse_book_details sampleSoup) } ∧
      ∀ j, j ≠ (0 : Nat) → store2[j]? = [sampleBook][j]? :=
  fetch_book_with_details_in_place sampleNet [sampleBook] ⟨0, by decide⟩ sampleSoup rfl

theorem worker_join_barrier_witness :
    pendingAfter ([Ev.take (pageUrl 1) 1, Ev.detailDone (pageUrl 1) 0,
      Ev.append (pageUrl 1) 1].take 2) = [] :=
  worker_join_barrier sampleNet [pageUrl 1]
    (ITrace.snoc (ITrace.snoc (ITrace.snoc ITrace.refl
      (IStep.takeGo (pageUrl 1) [] [samplePod] [sampleBook] rfl rfl (by decide)))
      (IStep.detailStep (pageUrl 1) [] [sampleBook] (List.range 1) 0 (by decide)))
      (IStep.joinAppend (pageUrl 1) [] [sampleBook] (by decide)))
    2 (Ev.append (pageUrl 1) 1) rfl rfl

/-- C3: a fetched list page that parses to zero summaries ends the
worker's pull loop on the spot: the undispatched jobs `q` are returned
untouched (this worker takes no further job) and the result collection
is exactly the `acc` it had (it appends nothing further). -/
theorem worker_stops_on_empty_page (net : Net) (u : String) (q : List String)
    (acc : List Book) (pods : List ProductPod)
    (hfetch : net.listPage u = Except.ok pods)
    (hparse : parse_books_list pods = Except.ok []) :
    workerRun net (u :: q) acc = (q, acc, WorkerExit.emptyPage) := by
  simp [workerRun, hfetch, hparse]

/-- A network whose every list page parses to zero summaries (no item
nodes). -/
def emptyPageNet : Net :=
  { listPage := fun _ => Except.ok []
  , detailPage := fun _ => Except.ok sampleSoup }

theorem worker_stops_on_empty_page_witness :
    workerRun emptyPageNet (pageUrl 1 :: [pageUrl 2]) [sampleBook] =
      ([pageUrl 2], [sampleBook], WorkerExit.emptyPage) :=
  worker_stops_on_empty_page emptyPageNet (pageUrl 1) [pageUrl 2] [sampleBook] [] rfl rfl

/-- C2: a job whose list-page fetch fails with a transport error is
handled like a zero-summary page as far as the shared state goes: no
record for the job is appended, items appended by earlier jobs stay in
`acc`, and the pull loop ends there with the undispatched jobs
untouched — the queue and collection components agree with those of a
run whose page parsed to zero summaries (only the exit label records
that an exception, not a clean break, ended the loop). -/
theorem worker_fetch_failure_like_empty_page (net net0 : Net) (u : String)
    (q : List String) (acc : List Book) (e : TransportError)
    (pods : List ProductPod)
    (hfail : net.listPage u = Except.error e)
    (h0 : net0.listPage u = Except.ok pods)
    (hparse : parse_books_list pods = Except.ok []) :
    workerRun net (u :: q) acc = (q, acc, WorkerExit.listFetchFailed e) ∧
    (workerRun net (u :: q) acc).1 = (workerRun net0 (u :: q) acc).1 ∧
    (workerRun net (u :: q) acc).2.1 = (workerRun net0 (u :: q) acc).2.1 := by
  have hrun : workerRun net (u :: q) acc = (q, acc, WorkerExit.listFetchFailed e) := by
    simp [workerRun, hfail]
  have hrun0 : workerRun net0 (u :: q) acc = (q, acc, WorkerExit.emptyPage) :=
    worker_stops_on_empty_page net0 u q acc pods h0 hparse
  rw [hrun, hrun0]
  exact ⟨rfl, rfl, rfl⟩

/-- A network where every list-page fetch times out. -/
def failingNet : Net :=
  { listPage := fun _ => Except.error TransportError.timeout
  , detailPage := fun _ => Except.ok sampleSoup }

theorem worker_fetch_failure_like_empty_page_witness :
    workerRun failingNet (pageUrl 1 :: [pageUrl 2]) [sampleBook] =
      ([pageUrl 2], [sampleBook], WorkerExit.listFetchFailed TransportError.timeout) ∧
    (workerRun failingNet (pageUrl 1 :: [pageUrl 2]) [sampleBook]).1 =
      (workerRun emptyPageNet (pageUrl 1 :: [pageUrl 2]) [sampleBook]).1 ∧
    (workerRun failingNet (pageUrl 1 :: [pageUrl 2]) [sampleBook]).2.1 =
      (workerRun emptyPageNet (pageUrl 1 :: [pageUrl 2]) [sampleBook]).2.1 :=
  worker_fetch_failure_like_empty_page failingNet emptyPageNet (pageUrl 1)
    [pageUrl 2] [sampleBook] TransportError.timeout [] rfl rfl rfl

/-! ### No item duplicated, none dropped (C1) -/

theorem enrichAll_length {net : Net} :
    ∀ {books out : List Book}, enrichAll net books = Except.ok out →
      out.length = books.length := by
  intro books
  induction books with
  | nil =>
    intro out h
    simp only [enrichAll] at h
    cases h
    rfl
  | cons b bs ih =>
    intro out h
    simp only [enrichAll] at h
    cases henr : enrichBook net b with
    | error e => rw [henr] at h; exact absurd h (by simp)
    | ok b2 =>
      rw [henr] at h
      cases hrest : enrichAll net bs with
      | error e => rw [hrest] at h; exact absurd h (by simp)
      | ok out2 =>
        rw [hrest] at h
        cases h
        simp [ih hrest]

theorem enrichAll_ok_of_fetches_ok {net : Net} :
    ∀ {books : List Book}, (∀ b ∈ books, (net.detailPage b.link).isOk = true) →
      ∃ out, enrichAll net books = Except.ok out := by
  intro books
  induction books with
  | nil => exact fun _ => ⟨[], rfl⟩
  | cons b bs ih =>
    intro hall
    obtain ⟨out2, hout2⟩ := ih (fun b2 hb2 => hall b2 (List.mem_cons_of_mem _ hb2))
    have hb := hall b (List.mem_cons_self _ _)
    cases hdet : net.detailPage b.link with
    | error e => rw [hdet] at hb; exact absurd hb (by simp [Except.isOk, Except.toBool])
    | ok soup =>
      refine ⟨{ b with details := some (parse_book_details soup) } :: out2, ?_⟩
      simp [enrichAll, enrichBook, hdet, hout2]

/-- The batch a successful iteration appends has exactly as many records
as the page had summaries. -/
theorem processPage_proceed_length {net : Net} {u : String} {batch : List Book}
    (h : processPage net u = PageOutcome.proceed batch) :
    batch.length = numSummaries net u := by
  cases hfetch : net.listPage u with
  | error e => simp [processPage, hfetch] at h
  | ok pods =>
    cases hparse : parse_books_list pods with
    | error k => simp [processPage, hfetch, hparse] at h
    | ok books =>
      cases hemp : books.isEmpty with
      | true => simp [processPage, hfetch, hparse, hemp] at h
      | false =>
        cases henr : enrichAll net books with
        | error e => simp [processPage, hfetch, hparse, hemp, henr] at h
        | ok out =>
          simp only [processPage, hfetch, hparse, hemp, henr,
            Bool.false_eq_true, if_false] at h
          injection h with h2
          subst h2
          simp only [numSummaries, hfetch, hparse]
          exact enrichAll_length henr

/-- Under the no-failure, no-empty-page hypothesis every take proceeds. -/
theorem processPage_proceeds {net : Net} {u : String}
    (h : ∃ pods books, net.listPage u = Except.ok pods ∧
      parse_books_list pods = Except.ok books ∧ books ≠ [] ∧
      ∀ b ∈ books, (net.detailPage b.link).isOk = true) :
    ∃ batch, processPage net u = PageOutcome.proceed batch := by
  obtain ⟨pods, books, hfetch, hparse, hne, hdet⟩ := h
  obtain ⟨out, hout⟩ := enrichAll_ok_of_fetches_ok hdet
  refine ⟨out, ?_⟩
  simp only [processPage, hfetch, hparse, hout]
  rw [if_neg (by simp [List.isEmpty_iff, hne])]

theorem heldCount_append_cons (l1 l2 : List WPhase) (w : WPhase) :
    heldCount (l1 ++ w :: l2) = heldCount l1 + phaseCount w + heldCount l2 := by
  simp [heldCount, List.map_append, List.sum_append]
  omega

theorem heldCount_replicate_ready (W : Nat) :
    heldCount (List.replicate W WPhase.ready) = 0 := by
  induction W with
  | zero => rfl
  | succ n ih =>
    simp only [heldCount, List.replicate, List.map_cons, List.sum_cons, phaseCount] at ih ⊢
    omega

theorem heldCount_done {ws : List WPhase} (h : ∀ w ∈ ws, w = WPhase.done) :
    heldCount ws = 0 := by
  induction ws with
  | nil => rfl
  | cons w rest ih =>
    have hw := h w (List.mem_cons_self _ _)
    subst hw
    simpa [heldCount, phaseCount] using ih (fun x hx => h x (List.mem_cons_of_mem _ hx))

/-- The run invariant: the undispatched jobs are a suffix of the seeded
ones; appended items, held batches and not-yet-fetched pages account for
every summary of every seeded page; and the run can only be fully done
with the queue exhausted. -/
theorem reach_invariant (net : Net) (jobs : List String) (W : Nat) (hW : 0 < W)
    (Hall : ∀ u ∈ jobs, ∃ batch, processPage net u = PageOutcome.proceed batch)
    {s : Sys} (hs : Reach net jobs W s) :
    s.queue.IsSuffix jobs ∧
    s.allBooks.length + heldCount s.workers + countSum net s.queue =
      countSum net jobs ∧
    ((∀ w ∈ s.workers, w = WPhase.done) → s.queue = []) := by
  induction hs with
  | init =>
    refine ⟨List.suffix_refl jobs, ?_, ?_⟩
    · simp [mainInit, heldCount_replicate_ready]
    · intro hdone
      exfalso
      have hmem : WPhase.ready ∈ List.replicate W WPhase.ready :=
        List.mem_replicate.mpr ⟨Nat.pos_iff_ne_zero.mp hW, rfl⟩
      have := hdone WPhase.ready hmem
      exact absurd this (by simp)
  | step hs hstep ih =>
    obtain ⟨hsuf, hsum, hdone⟩ := ih
    cases hstep with
    | take u q A batch l1 l2 hproc =>
      refine ⟨?_, ?_, ?_⟩
      · exact List.IsSuffix.trans ⟨[u], rfl⟩ hsuf
      · have hb := processPage_proceed_length hproc
        rw [heldCount_append_cons] at hsum ⊢
        simp only [countSum, List.map_cons, List.sum_cons, phaseCount] at hsum ⊢
        omega
      · intro hall
        exfalso
        have : WPhase.holding batch ∈ l1 ++ WPhase.holding batch :: l2 :=
          List.mem_append_right _ (List.mem_cons_self _ _)
        exact absurd (hall _ this) (by simp)
    | takeStop u q A l1 l2 hstop =>
      exfalso
      have hu : u ∈ jobs := hsuf.subset (List.mem_cons_self _ _)
      obtain ⟨batch, hbatch⟩ := Hall u hu
      rw [hbatch] at hstop
      rcases hstop with h | h <;> exact absurd h (by simp)
    | exitEmpty A l1 l2 =>
      refine ⟨hsuf, ?_, fun _ => rfl⟩
      rw [heldCount_append_cons] at hsum ⊢
      simpa [phaseCount] using hsum
    | append Q A batch l1 l2 =>
      refine ⟨hsuf, ?_, ?_⟩
      · rw [heldCount_append_cons] at hsum ⊢
        simp only [phaseCount, List.length_append] at hsum ⊢
        omega
      · intro hall
        exfalso
        have : WPhase.ready ∈ l1 ++ WPhase.ready :: l2 :=
          List.mem_append_right _ (List.mem_cons_self _ _)
        exact absurd (hall _ this) (by simp)

/-- C1: in any run with `P` seeded pages in which every fetch succeeds
and every fetched list page yields at least one summary, once every
worker has terminated — whether one worker or many drained the queue —
the shared result collection holds exactly the sum, over the seeded list
pages, of the number of summaries extracted from each: no item
duplicated, none dropped. -/
theorem result_collection_complete (net : Net) (jobs : List String) (W : Nat)
    (hW : 0 < W)
    (Hall : ∀ u ∈ jobs, ∃ pods books, net.listPage u = Except.ok pods ∧
      parse_books_list pods = Except.ok books ∧ books ≠ [] ∧
      ∀ b ∈ books, (net.detailPage b.link).isOk = true)
    {s : Sys} (hs : Reach net jobs W s)
    (hterm : ∀ w ∈ s.workers, w = WPhase.done) :
    s.allBooks.length = (jobs.map (numSummaries net)).sum := by
  have Hall2 : ∀ u ∈ jobs, ∃ batch, processPage net u = PageOutcome.proceed batch :=
    fun u hu => processPage_proceeds (Hall u hu)
  obtain ⟨_, hsum, hq⟩ := reach_invariant net jobs W hW Hall2 hs
  rw [hq hterm] at hsum
  rw [heldCount_done hterm] at hsum
  simpa [countSum] using hsum

/-- `sampleBook` once its detail page has been fetched and parsed. -/
def sampleEnriched : Book :=
  { sampleBook with details := some (parse_book_details sampleSoup) }

theorem result_collection_complete_witness :
    (([] ++ [sampleEnriched] : List Book)).length =
      ([pageUrl 1].map (numSummaries sampleNet)).sum :=
  result_collection_complete sampleNet [pageUrl 1] 1 (by decide)
    (fun u _ => ⟨[samplePod], [sampleBook], rfl, rfl, by decide, by decide⟩)
    (Reach.step (Reach.step (Reach.step Reach.init
      (Step.take (pageUrl 1) [] [] [sampleEnriched] [] [] (by decide)))
      (Step.append [] [] [sampleEnriched] [] []))
      (Step.exitEmpty ([] ++ [sampleEnriched]) [] []))
    (by decide)

/-- `drainAll` is literally the repeated `tryTake`: the front job, then
the drain of the rest; empty when `tryTake` reports `Empty`. -/
theorem drainAll_eq_tryTake (q : List String) :
    drainAll q = (match tryTake q with
                  | none => []
                  | some (u, rest) => u :: drainAll rest) := by
  cases q <;> rfl

/-- C7: `main` seeds exactly 50 jobs — one per catalogue page, page
numbers 1 through 50, all distinct — into the queue of the initial
state, in which no worker has yet moved; and a single consumer draining
with the non-blocking take until `Empty` receives exactly those 50 jobs,
none duplicated, none omitted. -/
theorem main_seeds_fifty_distinct_jobs :
    seededJobs.length = 50 ∧
    seededJobs = (List.range' 1 50).map pageUrl ∧
    seededJobs.Nodup ∧
    drainAll seededJobs = seededJobs ∧
    ∀ W, (mainInit seededJobs W).queue = seededJobs ∧
      (mainInit seededJobs W).allBooks = [] ∧
      ∀ w ∈ (mainInit seededJobs W).workers, w = WPhase.ready := by
  refine ⟨by decide, by decide, by decide, ?_, ?_⟩
  · have h : ∀ q : List String, drainAll q = q := by
      intro q
      induction q with
      | nil => rfl
      | cons u rest ih => simp [drainAll, ih]
    exact h seededJobs
  · intro W
    refine ⟨rfl, rfl, ?_⟩
    intro w hw
    exact List.eq_of_mem_replicate hw

end Scraper
